import Mathlib

/-!
Verification of the token-manager lease repository
(`internal/repositories`, constants in `constants/constants.go`).

The backing store (Redis) is embedded as a record of the four key families
the repository touches:
  * `token_pool`       — the unordered set `token_pool` (available tokens),
  * `assigned_tokens`  — the unordered set `assigned_tokens`,
  * `keepalive_tokens` — the sorted set `keepalive_tokens` (member ↦ score),
  * `locks`            — the set of currently held `lock:<token>` keys.
Sets are represented as lists of members; the sorted set as an association
list from member to score (epoch seconds, `Int`).

Store failures that the Go code handles explicitly (a `TxPipeline.Exec`
returning an error) are injected as explicit boolean parameters; a failed
transaction applies none of its queued mutations, exactly as in Redis.
-/

namespace TokenManager

/-- Errors of `constants/constants.go`, plus the unclassified store error. -/
inductive TmErr where
  | noAvailableTokens
  | tokenNotFound
  | tokenNotAssigned
  | failedKeepAlive
  | tokenAlreadyInUse
  | storeError
deriving DecidableEq, Repr

/-- Token pool configuration from `constants/constants.go`. -/
def TokenLockTime : Int := 60

/-- 60 seconds. -/
def TokenAutoReleaseTime : Int := 60

/-- 5 minutes. -/
def TokenDeletionTime : Int := 5 * 60

/-- The Redis state the repository operates on. -/
structure Store where
  token_pool : List String
  assigned_tokens : List String
  keepalive_tokens : List (String × Int)
  locks : List String
deriving DecidableEq, Repr

/-- The empty store: no keys exist. -/
def Store.empty : Store := ⟨[], [], [], []⟩

/-- Redis `SADD`: add a member to a set (no duplicates). -/
def sAdd (s : List String) (t : String) : List String :=
  if t ∈ s then s else s ++ [t]

/-- Redis `SREM`: remove a member from a set. -/
def sRem (s : List String) (t : String) : List String :=
  s.filter (fun x => x ≠ t)

/-- Redis `ZSCORE`: the score of a member of a sorted set, if present. -/
def zScore (z : List (String × Int)) (t : String) : Option Int :=
  (z.find? (fun p => p.1 = t)).map (fun p => p.2)

/-- Redis `ZADD`: insert a member with a score, replacing any previous score. -/
def zAdd (z : List (String × Int)) (t : String) (score : Int) : List (String × Int) :=
  (t, score) :: z.filter (fun p => p.1 ≠ t)

/-- Redis `ZREM`: remove a member from a sorted set. -/
def zRem (z : List (String × Int)) (t : String) : List (String × Int) :=
  z.filter (fun p => p.1 ≠ t)

/-- `SaveToken` (the Generate operation): `SAdd token_pool token` then
`ZAdd keepalive_tokens (now, token)`. -/
def SaveToken (st : Store) (token : String) (now : Int) : Except TmErr Unit × Store :=
  (Except.ok (), { st with
    token_pool := sAdd st.token_pool token,
    keepalive_tokens := zAdd st.keepalive_tokens token now })

/-- `AssignToken`, after `SPop` has returned `token` (a member of the pool).
`SPop` removes the popped member; then `SetNX lock:<token>` must succeed;
then one transaction does `SAdd assigned_tokens token` and
`ZAdd keepalive_tokens (now+60, token)`.  If the transaction fails
(`txFails`), the lock key is deleted again and the error is returned. -/
def AssignToken (st : Store) (token : String) (now : Int) (txFails : Bool) :
    Except TmErr String × Store :=
  let st1 : Store := { st with token_pool := sRem st.token_pool token }
  if token ∈ st1.locks then
    (Except.error TmErr.tokenAlreadyInUse, st1)
  else
    let st2 : Store := { st1 with locks := sAdd st1.locks token }
    if txFails then
      (Except.error TmErr.storeError, { st2 with locks := sRem st2.locks token })
    else
      (Except.ok token, { st2 with
        assigned_tokens := sAdd st2.assigned_tokens token,
        keepalive_tokens := zAdd st2.keepalive_tokens token (now + 60) })

/-- `KeepAlive` (Renew): requires membership in the pool or the assigned set,
then `ZAdd keepalive_tokens (now + TokenAutoReleaseTime, token)`. -/
def KeepAlive (st : Store) (token : String) (now : Int) : Except TmErr Unit × Store :=
  if token ∈ st.token_pool ∨ token ∈ st.assigned_tokens then
    (Except.ok (), { st with
      keepalive_tokens := zAdd st.keepalive_tokens token (now + TokenAutoReleaseTime) })
  else
    (Except.error TmErr.tokenNotFound, st)

/-- `UnblockToken` (Release): requires membership in `assigned_tokens`; one
transaction removes the token from `assigned_tokens`, adds it to
`token_pool` and resets its keepalive score to `now + TokenAutoReleaseTime`. -/
def UnblockToken (st : Store) (token : String) (now : Int) : Except TmErr Unit × Store :=
  if token ∈ st.assigned_tokens then
    (Except.ok (), { st with
      assigned_tokens := sRem st.assigned_tokens token,
      token_pool := sAdd st.token_pool token,
      keepalive_tokens := zAdd st.keepalive_tokens token (now + TokenAutoReleaseTime) })
  else
    (Except.error TmErr.tokenNotAssigned, st)

/-- `DeleteToken`: one transaction with `SRem token_pool token`,
`SRem assigned_tokens token`, `ZRem keepalive_tokens token`; succeeds iff
one of the three commands reports a removed element. -/
def DeleteToken (st : Store) (token : String) : Except TmErr Unit × Store :=
  (if 0 < st.token_pool.count token + st.assigned_tokens.count token +
      (if (zScore st.keepalive_tokens token).isSome then 1 else 0)
   then Except.ok () else Except.error TmErr.tokenNotFound,
   { st with
     token_pool := sRem st.token_pool token,
     assigned_tokens := sRem st.assigned_tokens token,
     keepalive_tokens := zRem st.keepalive_tokens token })

/-- `GetAvailableTokens` (ListAvailable): `SMembers token_pool`, read-only. -/
def GetAvailableTokens (st : Store) : Except TmErr (List String) × Store :=
  (Except.ok st.token_pool, st)

/-- `GetAssignedTokensWithExpiry` (ListAssigned): for each member of
`assigned_tokens`, remaining = `max (score − now) (−1)`, or `−1` when the
token has no keepalive entry.  Read-only. -/
def GetAssignedTokensWithExpiry (st : Store) (now : Int) :
    Except TmErr (List (String × Int)) × Store :=
  (Except.ok (st.assigned_tokens.map (fun t =>
    match zScore st.keepalive_tokens t with
    | none => (t, -1)
    | some e => (t, max (e - now) (-1)))), st)

/-- Statistics of one cleanup pass (`CleanupResult` in the source;
`ProcessingError` is modelled as a flag). -/
structure CleanupResult where
  TokensReleased : Nat
  TokensDeleted : Nat
  ProcessingError : Bool
deriving DecidableEq, Repr

/-- The decision `cleanupAssignedTokens` takes for one assigned token, from
the keepalive score read before the transaction executes:
`some true` = delete (`SRem assigned_tokens` + `ZRem keepalive_tokens`),
`some false` = release (`SRem assigned_tokens` + `SAdd token_pool`),
`none` = leave untouched. -/
def assignedClassify (keepalive : List (String × Int)) (releaseBefore deleteBefore : Int)
    (t : String) : Option Bool :=
  match zScore keepalive t with
  | none => some true
  | some e =>
    if e ≤ deleteBefore then some true
    else if e ≤ releaseBefore then some false
    else none

/-- The queued mutations of the assigned-token sweep for one token. -/
def assignedStep (classify : String → Option Bool) (acc : Store) (t : String) : Store :=
  match classify t with
  | some true => { acc with
      assigned_tokens := sRem acc.assigned_tokens t,
      keepalive_tokens := zRem acc.keepalive_tokens t }
  | some false => { acc with
      assigned_tokens := sRem acc.assigned_tokens t,
      token_pool := sAdd acc.token_pool t }
  | none => acc

/-- Applying the queued transaction of the assigned-token sweep: for each
swept token, its mutations as decided by `classify`. -/
def applyAssignedCleanup (classify : String → Option Bool) (l : List String)
    (st : Store) : Store :=
  l.foldl (assignedStep classify) st

/-- `cleanupAssignedTokens`: reads `SMembers assigned_tokens` and each
member's keepalive score, queues the mutations of `assignedClassify` in one
transaction and executes it.  Counters are incremented while queueing, so
they are returned even when the transaction fails; a failed transaction
applies nothing. -/
def cleanupAssignedTokens (st : Store) (releaseBefore deleteBefore : Int)
    (txFails : Bool) : CleanupResult × Store :=
  if st.assigned_tokens = [] then (⟨0, 0, false⟩, st)
  else
    let classify := assignedClassify st.keepalive_tokens releaseBefore deleteBefore
    let nRel : Nat := (st.assigned_tokens.filter (fun t => classify t = some false)).length
    let nDel : Nat := (st.assigned_tokens.filter (fun t => classify t = some true)).length
    if txFails then (⟨nRel, nDel, true⟩, st)
    else (⟨nRel, nDel, false⟩, applyAssignedCleanup classify st.assigned_tokens st)

/-- The decision `cleanupPoolTokens` takes for one pool token: delete when
it has no keepalive entry or its score is at most `deleteBefore`. -/
def poolShouldDelete (keepalive : List (String × Int)) (deleteBefore : Int)
    (t : String) : Bool :=
  match zScore keepalive t with
  | none => true
  | some e => e ≤ deleteBefore

/-- Whether a pool token has a keepalive entry (the sweep only issues
`ZRem` for a deleted token when its score read did not return nil). -/
def poolHasScore (keepalive : List (String × Int)) (t : String) : Bool :=
  (zScore keepalive t).isSome

/-- The queued mutations of the pool sweep for one token. -/
def poolStep (shouldDel hasScore : String → Bool) (acc : Store) (t : String) : Store :=
  if shouldDel t then
    { acc with
      token_pool := sRem acc.token_pool t,
      keepalive_tokens := if hasScore t then zRem acc.keepalive_tokens t
                          else acc.keepalive_tokens }
  else acc

/-- Applying the queued transaction of the pool sweep. -/
def applyPoolCleanup (shouldDel hasScore : String → Bool) (l : List String)
    (st : Store) : Store :=
  l.foldl (poolStep shouldDel hasScore) st

/-- `cleanupPoolTokens`: reads `SMembers token_pool` and each member's
keepalive score, queues `SRem token_pool` (plus `ZRem keepalive_tokens`
when a score existed) for every stale token, and executes the transaction. -/
def cleanupPoolTokens (st : Store) (deleteBefore : Int) (txFails : Bool) :
    CleanupResult × Store :=
  if st.token_pool = [] then (⟨0, 0, false⟩, st)
  else
    let shouldDel := poolShouldDelete st.keepalive_tokens deleteBefore
    let nDel : Nat := (st.token_pool.filter shouldDel).length
    if txFails then (⟨0, nDel, true⟩, st)
    else (⟨0, nDel, false⟩,
      applyPoolCleanup shouldDel (poolHasScore st.keepalive_tokens) st.token_pool st)

/-- `cleanupExpiredTokens`: computes the thresholds from `now`, runs the two
sweeps against the shared store and aggregates their statistics (the first
sweep error is kept). -/
def cleanupExpiredTokens (st : Store) (now : Int)
    (assignedTxFails poolTxFails : Bool) : CleanupResult × Store :=
  let releaseBefore := now - TokenAutoReleaseTime
  let deleteBefore := now - TokenDeletionTime
  let r1 := cleanupAssignedTokens st releaseBefore deleteBefore assignedTxFails
  let r2 := cleanupPoolTokens r1.2 deleteBefore poolTxFails
  (⟨r1.1.TokensReleased + r2.1.TokensReleased,
    r1.1.TokensDeleted + r2.1.TokensDeleted,
    r1.1.ProcessingError || r2.1.ProcessingError⟩, r2.2)

/-- `CleanupExpiredTokens` (Reconcile): runs `cleanupExpiredTokens`; when a
processing error occurred it returns only the error (no counts map),
otherwise the map {assigned_tokens ↦ released, token_pool ↦ deleted}. -/
def CleanupExpiredTokens (st : Store) (now : Int)
    (assignedTxFails poolTxFails : Bool) :
    Except TmErr (Nat × Nat) × Store :=
  let r := cleanupExpiredTokens st now assignedTxFails poolTxFails
  if r.1.ProcessingError then (Except.error TmErr.storeError, r.2)
  else (Except.ok (r.1.TokensReleased, r.1.TokensDeleted), r.2)

/-- Mutual exclusion of the two membership sets: no token is simultaneously
in the Available pool and in the Assigned set. -/
def mutualExclusion (st : Store) : Prop :=
  ∀ t : String, ¬(t ∈ st.token_pool ∧ t ∈ st.assigned_tokens)

/-- One completed repository operation (or a lock TTL expiry), as observable
between calls: every success and error path of the repository operations,
with the token popped by `Assign`, the timestamps and the injected
transaction failures nondeterministic.  `generate` requires a fresh
universally-unique id; `generatePartial` is `SaveToken` whose second store
command fails after the pool `SAdd` committed. -/
inductive Step : Store → Store → Prop where
  | generate (st : Store) (token : String) (now : Int) :
      token ∉ st.token_pool → token ∉ st.assigned_tokens →
      zScore st.keepalive_tokens token = none →
      Step st (SaveToken st token now).2
  | generatePartial (st : Store) (token : String) :
      token ∉ st.token_pool → token ∉ st.assigned_tokens →
      zScore st.keepalive_tokens token = none →
      Step st { st with token_pool := sAdd st.token_pool token }
  | assign (st : Store) (token : String) (now : Int) (txFails : Bool) :
      token ∈ st.token_pool →
      Step st (AssignToken st token now txFails).2
  | keepAlive (st : Store) (token : String) (now : Int) :
      Step st (KeepAlive st token now).2
  | unblock (st : Store) (token : String) (now : Int) :
      Step st (UnblockToken st token now).2
  | delete (st : Store) (token : String) :
      Step st (DeleteToken st token).2
  | reconcile (st : Store) (now : Int) (aF pF : Bool) :
      Step st (cleanupExpiredTokens st now aF pF).2
  | lockExpire (st : Store) (token : String) :
      Step st { st with locks := sRem st.locks token }

/-- The stores reachable from the empty store by completed operations. -/
inductive Reachable : Store → Prop where
  | empty : Reachable Store.empty
  | step (st st2 : Store) : Reachable st → Step st st2 → Reachable st2

/-- Extensional equality of stores: the two Redis sets have the same
members, the sorted set assigns every member the same score, and the same
lock keys are held.  (The list representation of a Redis set carries a
spurious order; two stores are the same Redis state iff they are `Equiv`.) -/
def Store.Equiv (s1 s2 : Store) : Prop :=
  (∀ x : String, x ∈ s1.token_pool ↔ x ∈ s2.token_pool) ∧
  (∀ x : String, x ∈ s1.assigned_tokens ↔ x ∈ s2.assigned_tokens) ∧
  (∀ x : String, zScore s1.keepalive_tokens x = zScore s2.keepalive_tokens x) ∧
  (∀ x : String, x ∈ s1.locks ↔ x ∈ s2.locks)

/-! ### Basic lemmas about the embedded Redis primitives -/

theorem mem_sAdd {s : List String} {t x : String} :
    x ∈ sAdd s t ↔ x ∈ s ∨ x = t := by
  by_cases h : t ∈ s
  · simp only [sAdd, if_pos h]
    constructor
    · exact fun hx => Or.inl hx
    · rintro (hx | rfl)
      · exact hx
      · exact h
  · simp [sAdd, if_neg h]

theorem mem_sRem {s : List String} {t x : String} :
    x ∈ sRem s t ↔ x ∈ s ∧ x ≠ t := by
  simp [sRem]

theorem not_mem_sRem_self (s : List String) (t : String) : t ∉ sRem s t := by
  simp [mem_sRem]

theorem zScore_cons (a : String × Int) (z : List (String × Int)) (x : String) :
    zScore (a :: z) x = if a.1 = x then some a.2 else zScore z x := by
  by_cases h : a.1 = x <;> simp [zScore, List.find?_cons, h]

theorem zScore_zRem (z : List (String × Int)) (t x : String) :
    zScore (zRem z t) x = if x = t then none else zScore z x := by
  induction z with
  | nil => simp [zRem, zScore]
  | cons a z ih =>
    by_cases hat : a.1 = t
    · have : zRem (a :: z) t = zRem z t := by simp [zRem, hat]
      rw [this, ih]
      by_cases hxt : x = t
      · simp [hxt]
      · rw [if_neg hxt, if_neg hxt, zScore_cons, if_neg (by rw [hat]; exact fun h => hxt h.symm)]
    · have : zRem (a :: z) t = a :: zRem z t := by simp [zRem, hat]
      rw [this, zScore_cons, zScore_cons, ih]
      by_cases hax : a.1 = x
      · have hxt : ¬ x = t := by rw [← hax]; exact fun h => hat (by rw [h])
        simp [hax, hxt]
      · simp [hax]

theorem zScore_zAdd (z : List (String × Int)) (t : String) (score : Int) (x : String) :
    zScore (zAdd z t score) x = if t = x then some score else zScore z x := by
  unfold zAdd
  rw [zScore_cons]
  by_cases h : t = x
  · simp [h]
  · rw [if_neg h, if_neg h]
    have : z.filter (fun p => p.1 ≠ t) = zRem z t := rfl
    rw [this, zScore_zRem, if_neg (fun hx => h hx.symm)]

/-! ### Characterizing the two reconciliation sweeps -/

theorem applyAssignedCleanup_cons (c : String → Option Bool) (t : String)
    (l : List String) (st : Store) :
    applyAssignedCleanup c (t :: l) st = applyAssignedCleanup c l (assignedStep c st t) := rfl

theorem applyPoolCleanup_cons (sd hs : String → Bool) (t : String)
    (l : List String) (st : Store) :
    applyPoolCleanup sd hs (t :: l) st = applyPoolCleanup sd hs l (poolStep sd hs st t) := rfl

theorem locks_applyAssignedCleanup (c : String → Option Bool) (l : List String)
    (st : Store) : (applyAssignedCleanup c l st).locks = st.locks := by
  induction l generalizing st with
  | nil => rfl
  | cons t l ih =>
    rw [applyAssignedCleanup_cons, ih]
    cases hc : c t with
    | none => simp [assignedStep, hc]
    | some b => cases b <;> simp [assignedStep, hc]

theorem mem_assigned_applyAssignedCleanup (c : String → Option Bool) (l : List String)
    (st : Store) (x : String) :
    x ∈ (applyAssignedCleanup c l st).assigned_tokens ↔
      x ∈ st.assigned_tokens ∧ ¬(x ∈ l ∧ (c x).isSome) := by
  induction l generalizing st with
  | nil => simp [applyAssignedCleanup]
  | cons t l ih =>
    rw [applyAssignedCleanup_cons, ih]
    by_cases hxt : x = t
    · subst hxt
      cases hc : c x with
      | none => simp [assignedStep, hc]
      | some b => cases b <;> simp [assignedStep, hc, mem_sRem]
    · cases hc : c t with
      | none => simp [assignedStep, hc, hxt]
      | some b => cases b <;> simp [assignedStep, hc, mem_sRem, hxt]

theorem mem_pool_applyAssignedCleanup (c : String → Option Bool) (l : List String)
    (st : Store) (x : String) :
    x ∈ (applyAssignedCleanup c l st).token_pool ↔
      x ∈ st.token_pool ∨ (x ∈ l ∧ c x = some false) := by
  induction l generalizing st with
  | nil => simp [applyAssignedCleanup]
  | cons t l ih =>
    rw [applyAssignedCleanup_cons, ih]
    by_cases hxt : x = t
    · subst hxt
      cases hc : c x with
      | none => simp [assignedStep, hc]
      | some b => cases b <;> simp [assignedStep, hc, mem_sAdd]
    · cases hc : c t with
      | none => simp [assignedStep, hc, hxt]
      | some b =>
        cases b <;> simp [assignedStep, hc, mem_sAdd, hxt]

theorem zScore_applyAssignedCleanup (c : String → Option Bool) (l : List String)
    (st : Store) (x : String) :
    zScore (applyAssignedCleanup c l st).keepalive_tokens x =
      if x ∈ l ∧ c x = some true then none else zScore st.keepalive_tokens x := by
  induction l generalizing st with
  | nil => simp [applyAssignedCleanup]
  | cons t l ih =>
    rw [applyAssignedCleanup_cons, ih]
    by_cases hxt : x = t
    · subst hxt
      cases hc : c x with
      | none => simp [assignedStep, hc]
      | some b =>
        cases b <;> by_cases hxl : x ∈ l ∧ c x = some true <;>
          simp_all [assignedStep, zScore_zRem]
    · cases hc : c t with
      | none => simp [assignedStep, hc, hxt]
      | some b =>
        cases b <;> by_cases hxl : x ∈ l ∧ c x = some true <;>
          simp_all [assignedStep, zScore_zRem]

theorem pool_applyAssignedCleanup_append (c : String → Option Bool) (l : List String)
    (st : Store) :
    ∃ ex : List String, (applyAssignedCleanup c l st).token_pool = st.token_pool ++ ex ∧
      ∀ x ∈ ex, x ∈ l ∧ c x = some false := by
  induction l generalizing st with
  | nil => exact ⟨[], by simp [applyAssignedCleanup], by simp⟩
  | cons t l ih =>
    rw [applyAssignedCleanup_cons]
    obtain ⟨ex, hex, hall⟩ := ih (assignedStep c st t)
    cases hc : c t with
    | none =>
      refine ⟨ex, ?_, fun x hx => ⟨List.mem_cons_of_mem _ (hall x hx).1, (hall x hx).2⟩⟩
      rw [hex]
      simp [assignedStep, hc]
    | some b =>
      cases b
      · by_cases ht : t ∈ st.token_pool
        · refine ⟨ex, ?_, fun x hx => ⟨List.mem_cons_of_mem _ (hall x hx).1, (hall x hx).2⟩⟩
          rw [hex]
          simp [assignedStep, hc, sAdd, ht]
        · refine ⟨t :: ex, ?_, ?_⟩
          · rw [hex]
            simp [assignedStep, hc, sAdd, ht]
          · intro x hx
            rcases List.mem_cons.mp hx with rfl | hx
            · exact ⟨List.mem_cons_self _ _, hc⟩
            · exact ⟨List.mem_cons_of_mem _ (hall x hx).1, (hall x hx).2⟩
      · refine ⟨ex, ?_, fun x hx => ⟨List.mem_cons_of_mem _ (hall x hx).1, (hall x hx).2⟩⟩
        rw [hex]
        simp [assignedStep, hc]

theorem assigned_applyPoolCleanup (sd hs : String → Bool) (l : List String)
    (st : Store) : (applyPoolCleanup sd hs l st).assigned_tokens = st.assigned_tokens := by
  induction l generalizing st with
  | nil => rfl
  | cons t l ih =>
    rw [applyPoolCleanup_cons, ih]
    by_cases hd : sd t <;> simp [poolStep, hd]

theorem locks_applyPoolCleanup (sd hs : String → Bool) (l : List String)
    (st : Store) : (applyPoolCleanup sd hs l st).locks = st.locks := by
  induction l generalizing st with
  | nil => rfl
  | cons t l ih =>
    rw [applyPoolCleanup_cons, ih]
    by_cases hd : sd t <;> simp [poolStep, hd]

theorem mem_pool_applyPoolCleanup (sd hs : String → Bool) (l : List String)
    (st : Store) (x : String) :
    x ∈ (applyPoolCleanup sd hs l st).token_pool ↔
      x ∈ st.token_pool ∧ ¬(x ∈ l ∧ sd x) := by
  induction l generalizing st with
  | nil => simp [applyPoolCleanup]
  | cons t l ih =>
    rw [applyPoolCleanup_cons, ih]
    by_cases hxt : x = t
    · subst hxt
      by_cases hd : sd x <;> simp [poolStep, hd, mem_sRem]
    · by_cases hd : sd t <;> simp [poolStep, hd, mem_sRem, hxt]

theorem zScore_applyPoolCleanup (sd hs : String → Bool) (l : List String)
    (st : Store) (x : String) :
    zScore (applyPoolCleanup sd hs l st).keepalive_tokens x =
      if x ∈ l ∧ sd x ∧ hs x then none else zScore st.keepalive_tokens x := by
  induction l generalizing st with
  | nil => simp [applyPoolCleanup]
  | cons t l ih =>
    rw [applyPoolCleanup_cons, ih]
    by_cases hxt : x = t
    · subst hxt
      by_cases hd : sd x
      · by_cases hh : hs x <;> by_cases hxl : x ∈ l ∧ sd x ∧ hs x <;>
          simp_all [poolStep, zScore_zRem]
      · by_cases hxl : x ∈ l ∧ sd x ∧ hs x <;> simp_all [poolStep]
    · by_cases hd : sd t
      · by_cases hh : hs t <;> by_cases hxl : x ∈ l ∧ sd x ∧ hs x <;>
          simp_all [poolStep, zScore_zRem]
      · by_cases hxl : x ∈ l ∧ sd x ∧ hs x <;> simp_all [poolStep]

theorem cleanupAssignedTokens_state_false (st : Store) (rB dB : Int) :
    (cleanupAssignedTokens st rB dB false).2 =
      applyAssignedCleanup (assignedClassify st.keepalive_tokens rB dB)
        st.assigned_tokens st := by
  by_cases h : st.assigned_tokens = [] <;> simp [cleanupAssignedTokens, h, applyAssignedCleanup]

theorem cleanupAssignedTokens_state_true (st : Store) (rB dB : Int) :
    (cleanupAssignedTokens st rB dB true).2 = st := by
  by_cases h : st.assigned_tokens = [] <;> simp [cleanupAssignedTokens, h]

theorem cleanupAssignedTokens_err_true (st : Store) (rB dB : Int)
    (h : st.assigned_tokens ≠ []) :
    (cleanupAssignedTokens st rB dB true).1.ProcessingError = true := by
  simp [cleanupAssignedTokens, h]

theorem cleanupAssignedTokens_counts (st : Store) (rB dB : Int) (txF : Bool) :
    (cleanupAssignedTokens st rB dB txF).1.TokensReleased =
      (st.assigned_tokens.filter
        (fun t => assignedClassify st.keepalive_tokens rB dB t = some false)).length ∧
    (cleanupAssignedTokens st rB dB txF).1.TokensDeleted =
      (st.assigned_tokens.filter
        (fun t => assignedClassify st.keepalive_tokens rB dB t = some true)).length := by
  by_cases h : st.assigned_tokens = []
  · simp [cleanupAssignedTokens, h]
  · cases txF <;> simp [cleanupAssignedTokens, h]

theorem cleanupPoolTokens_state_false (st : Store) (dB : Int) :
    (cleanupPoolTokens st dB false).2 =
      applyPoolCleanup (poolShouldDelete st.keepalive_tokens dB)
        (poolHasScore st.keepalive_tokens) st.token_pool st := by
  by_cases h : st.token_pool = [] <;> simp [cleanupPoolTokens, h, applyPoolCleanup]

theorem cleanupPoolTokens_state_true (st : Store) (dB : Int) :
    (cleanupPoolTokens st dB true).2 = st := by
  by_cases h : st.token_pool = [] <;> simp [cleanupPoolTokens, h]

theorem cleanupPoolTokens_counts (st : Store) (dB : Int) (txF : Bool) :
    (cleanupPoolTokens st dB txF).1.TokensReleased = 0 ∧
    (cleanupPoolTokens st dB txF).1.TokensDeleted =
      (st.token_pool.filter (poolShouldDelete st.keepalive_tokens dB)).length := by
  by_cases h : st.token_pool = []
  · simp [cleanupPoolTokens, h]
  · cases txF <;> simp [cleanupPoolTokens, h]

theorem cleanupExpiredTokens_snd (st : Store) (now : Int) (aF pF : Bool) :
    (cleanupExpiredTokens st now aF pF).2 =
      (cleanupPoolTokens
        (cleanupAssignedTokens st (now - TokenAutoReleaseTime)
          (now - TokenDeletionTime) aF).2
        (now - TokenDeletionTime) pF).2 := rfl

theorem cleanupExpiredTokens_err (st : Store) (now : Int) (aF pF : Bool) :
    (cleanupExpiredTokens st now aF pF).1.ProcessingError =
      ((cleanupAssignedTokens st (now - TokenAutoReleaseTime)
          (now - TokenDeletionTime) aF).1.ProcessingError ||
       (cleanupPoolTokens
          (cleanupAssignedTokens st (now - TokenAutoReleaseTime)
            (now - TokenDeletionTime) aF).2
          (now - TokenDeletionTime) pF).1.ProcessingError) := rfl

theorem CleanupExpiredTokens_fst (st : Store) (now : Int) (aF pF : Bool) :
    (CleanupExpiredTokens st now aF pF).1 =
      if (cleanupExpiredTokens st now aF pF).1.ProcessingError
      then Except.error TmErr.storeError
      else Except.ok ((cleanupExpiredTokens st now aF pF).1.TokensReleased,
        (cleanupExpiredTokens st now aF pF).1.TokensDeleted) := by
  simp only [CleanupExpiredTokens, apply_ite Prod.fst]

theorem CleanupExpiredTokens_snd (st : Store) (now : Int) (aF pF : Bool) :
    (CleanupExpiredTokens st now aF pF).2 = (cleanupExpiredTokens st now aF pF).2 := by
  simp only [CleanupExpiredTokens, apply_ite Prod.snd, ite_self]

/-! ### Claims C2 and C4: what one reconciliation pass does to an
unrenewed assigned token -/

/-- C2 (amended): a token `t` assigned at time `T` (so its keepalive
deadline is `T + 60`) and never renewed is moved from Assigned to Available
by one reconciliation pass at `now` iff the *deadline* is at least one
release window old, i.e. when `T + 60 + 60 ≤ now`, and `now` is still
short of the deletion rule `T + 60 + 300 ≤ now`. -/
theorem reconcile_releases_after_double_window (st : Store) (t : String) (T now : Int)
    (ht : t ∈ st.assigned_tokens)
    (hk : zScore st.keepalive_tokens t = some (T + 60))
    (h1 : T + 60 + TokenAutoReleaseTime ≤ now)
    (h2 : now < T + 60 + TokenDeletionTime) :
    t ∈ (cleanupExpiredTokens st now false false).2.token_pool ∧
    t ∉ (cleanupExpiredTokens st now false false).2.assigned_tokens := by
  rw [cleanupExpiredTokens_snd, cleanupPoolTokens_state_false,
    cleanupAssignedTokens_state_false]
  simp only [TokenAutoReleaseTime, TokenDeletionTime] at h1 h2
  set c := assignedClassify st.keepalive_tokens (now - TokenAutoReleaseTime)
    (now - TokenDeletionTime) with hcdef
  set st1 := applyAssignedCleanup c st.assigned_tokens st with hst1
  have hct : c t = some false := by
    rw [hcdef]
    simp only [assignedClassify, hk, TokenAutoReleaseTime, TokenDeletionTime]
    rw [if_neg (by omega), if_pos (by omega)]
  have hz1 : zScore st1.keepalive_tokens t = some (T + 60) := by
    rw [hst1, zScore_applyAssignedCleanup]
    rw [if_neg]
    · exact hk
    · rintro ⟨_, hcontra⟩
      rw [hct] at hcontra
      cases hcontra
  have hsd : poolShouldDelete st1.keepalive_tokens (now - TokenDeletionTime) t = false := by
    simp only [poolShouldDelete, hz1, TokenDeletionTime, decide_eq_false_iff_not]
    omega
  constructor
  · rw [mem_pool_applyPoolCleanup]
    have hp1 : t ∈ st1.token_pool := by
      rw [hst1, mem_pool_applyAssignedCleanup]
      exact Or.inr ⟨ht, hct⟩
    exact ⟨hp1, fun hcontra => by rw [hsd] at hcontra; cases hcontra.2⟩
  · rw [assigned_applyPoolCleanup, hst1, mem_assigned_applyAssignedCleanup]
    rintro ⟨_, hcontra⟩
    exact hcontra ⟨ht, by rw [hct]; rfl⟩

theorem reconcile_releases_after_double_window_witness :
    "a" ∈ (cleanupExpiredTokens ⟨[], ["a"], [("a", 60)], ["a"]⟩ 120 false false).2.token_pool ∧
    "a" ∉ (cleanupExpiredTokens ⟨[], ["a"], [("a", 60)], ["a"]⟩ 120 false false).2.assigned_tokens :=
  reconcile_releases_after_double_window ⟨[], ["a"], [("a", 60)], ["a"]⟩ "a" 0 120
    (by decide) (by decide) (by decide) (by decide)

/-- C2 as stated is false: a token assigned at `T = 0` (deadline `60`) and
never renewed, with `now = 60` (`now ≥ T + lease_window` and
`now < T + deletion_threshold`), is NOT released by the reconciliation
pass: it stays in Assigned and is not in Available.  The state below is
exactly `Generate("a")` at time 0 followed by `Assign` at time 0. -/
theorem reconcile_release_claim_counterexample :
    "a" ∈ (cleanupExpiredTokens
        (AssignToken (SaveToken Store.empty "a" 0).2 "a" 0 false).2
        60 false false).2.assigned_tokens ∧
    "a" ∉ (cleanupExpiredTokens
        (AssignToken (SaveToken Store.empty "a" 0).2 "a" 0 false).2
        60 false false).2.token_pool := by decide

/-- C4 (amended): a token `t` assigned at time `T` (keepalive deadline
`T + 60`) and never renewed is permanently deleted by one reconciliation
pass at `now` when the deadline is at least one deletion threshold old,
i.e. when `T + 60 + 300 ≤ now`: afterwards it is in neither the pool nor
the assigned set, and its keepalive entry is gone. -/
theorem reconcile_deletes_after_deadline_plus_threshold (st : Store) (t : String)
    (T now : Int)
    (ht : t ∈ st.assigned_tokens)
    (hk : zScore st.keepalive_tokens t = some (T + 60))
    (h1 : T + 60 + TokenDeletionTime ≤ now) :
    t ∉ (cleanupExpiredTokens st now false false).2.token_pool ∧
    t ∉ (cleanupExpiredTokens st now false false).2.assigned_tokens ∧
    zScore (cleanupExpiredTokens st now false false).2.keepalive_tokens t = none := by
  rw [cleanupExpiredTokens_snd, cleanupPoolTokens_state_false,
    cleanupAssignedTokens_state_false]
  simp only [TokenDeletionTime] at h1
  set c := assignedClassify st.keepalive_tokens (now - TokenAutoReleaseTime)
    (now - TokenDeletionTime) with hcdef
  set st1 := applyAssignedCleanup c st.assigned_tokens st with hst1
  have hct : c t = some true := by
    rw [hcdef]
    simp only [assignedClassify, hk, TokenDeletionTime]
    rw [if_pos (by omega)]
  have hz1 : zScore st1.keepalive_tokens t = none := by
    rw [hst1, zScore_applyAssignedCleanup, if_pos ⟨ht, hct⟩]
  have hsd : poolShouldDelete st1.keepalive_tokens (now - TokenDeletionTime) t = true := by
    simp only [poolShouldDelete, hz1]
  refine ⟨?_, ?_, ?_⟩
  · rw [mem_pool_applyPoolCleanup]
    rintro ⟨hp1, hcontra⟩
    exact hcontra ⟨hp1, hsd⟩
  · rw [assigned_applyPoolCleanup, hst1, mem_assigned_applyAssignedCleanup]
    rintro ⟨_, hcontra⟩
    exact hcontra ⟨ht, by rw [hct]; rfl⟩
  · rw [zScore_applyPoolCleanup]
    by_cases hcase : t ∈ st1.token_pool ∧
        poolShouldDelete st1.keepalive_tokens (now - TokenDeletionTime) t = true ∧
        poolHasScore st1.keepalive_tokens t = true
    · rw [if_pos hcase]
    · rw [if_neg hcase]
      exact hz1

theorem reconcile_deletes_after_deadline_plus_threshold_witness :
    "a" ∉ (cleanupExpiredTokens ⟨[], ["a"], [("a", 60)], ["a"]⟩ 360 false false).2.token_pool ∧
    "a" ∉ (cleanupExpiredTokens ⟨[], ["a"], [("a", 60)], ["a"]⟩ 360 false false).2.assigned_tokens ∧
    zScore (cleanupExpiredTokens ⟨[], ["a"], [("a", 60)], ["a"]⟩
      360 false false).2.keepalive_tokens "a" = none :=
  reconcile_deletes_after_deadline_plus_threshold ⟨[], ["a"], [("a", 60)], ["a"]⟩ "a" 0 360
    (by decide) (by decide) (by decide)

/-- C4 as stated is false: a token assigned at `T = 0` and never renewed,
with `now = 300 = T + deletion_threshold`, is not deleted by the
reconciliation pass — it is released back into the pool instead.  The
state below is exactly `Generate("a")` at time 0 followed by `Assign` at
time 0. -/
theorem reconcile_delete_claim_counterexample :
    "a" ∈ (cleanupExpiredTokens
        (AssignToken (SaveToken Store.empty "a" 0).2 "a" 0 false).2
        300 false false).2.token_pool ∧
    "a" ∉ (cleanupExpiredTokens
        (AssignToken (SaveToken Store.empty "a" 0).2 "a" 0 false).2
        300 false false).2.assigned_tokens := by decide

/-! ### Claim C3: what the caller of Reconcile sees when one sweep fails -/

/-- C3 (amended): when the assigned sweep's transaction fails (on a
non-empty assigned set) while the pool sweep commits, `CleanupExpiredTokens`
returns an error to the caller — the successful sweep's counts are NOT
reported — while the successful pool sweep's state mutations persist. -/
theorem reconcile_sweep_failure_discards_counts (st : Store) (now : Int)
    (h : st.assigned_tokens ≠ []) :
    (CleanupExpiredTokens st now true false).1 = Except.error TmErr.storeError ∧
    (CleanupExpiredTokens st now true false).2 =
      (cleanupPoolTokens st (now - TokenDeletionTime) false).2 := by
  have herr : (cleanupAssignedTokens st (now - TokenAutoReleaseTime)
      (now - TokenDeletionTime) true).1.ProcessingError = true :=
    cleanupAssignedTokens_err_true st _ _ h
  have hstate : (cleanupAssignedTokens st (now - TokenAutoReleaseTime)
      (now - TokenDeletionTime) true).2 = st :=
    cleanupAssignedTokens_state_true st _ _
  constructor
  · rw [CleanupExpiredTokens_fst, cleanupExpiredTokens_err, herr, Bool.true_or]
    rfl
  · rw [CleanupExpiredTokens_snd, cleanupExpiredTokens_snd, hstate]

theorem reconcile_sweep_failure_discards_counts_witness :
    (CleanupExpiredTokens ⟨["b"], ["a"], [("a", -1000)], []⟩ 0 true false).1 =
      Except.error TmErr.storeError ∧
    (CleanupExpiredTokens ⟨["b"], ["a"], [("a", -1000)], []⟩ 0 true false).2 =
      (cleanupPoolTokens ⟨["b"], ["a"], [("a", -1000)], []⟩ (0 - TokenDeletionTime) false).2 :=
  reconcile_sweep_failure_discards_counts ⟨["b"], ["a"], [("a", -1000)], []⟩ 0 (by decide)

/-- C3 as stated is false: with the assigned sweep's transaction failing
and the pool sweep committing (it deletes the stale pool token `"b"`),
`CleanupExpiredTokens` reports only an error to the caller — the committed
pool sweep's deleted count is not part of the result. -/
theorem reconcile_sweep_failure_claim_counterexample :
    (CleanupExpiredTokens ⟨["b"], ["a"], [("a", -1000)], []⟩ 0 true false).1 =
      Except.error TmErr.storeError ∧
    "b" ∉ (CleanupExpiredTokens ⟨["b"], ["a"], [("a", -1000)], []⟩
      0 true false).2.token_pool := ⟨rfl, by decide⟩

/-! ### Claim C5: Assign rolls back the lock when its transaction fails -/

/-- C5: when step (c) of `AssignToken` (the transaction adding the popped
token to `assigned_tokens` and writing its deadline) fails, the per-token
lock acquired in step (b) is released before the error is returned, and on
return the token is a member of neither the pool nor the assigned set. -/
theorem assignToken_tx_failure_releases_lock (st : Store) (token : String) (now : Int)
    (hlock : token ∉ st.locks) (hassigned : token ∉ st.assigned_tokens) :
    (AssignToken st token now true).1 = Except.error TmErr.storeError ∧
    token ∉ (AssignToken st token now true).2.locks ∧
    token ∉ (AssignToken st token now true).2.token_pool ∧
    token ∉ (AssignToken st token now true).2.assigned_tokens := by
  simp only [AssignToken, if_neg hlock, if_pos rfl]
  exact ⟨rfl, not_mem_sRem_self _ _, not_mem_sRem_self _ _, hassigned⟩

theorem assignToken_tx_failure_releases_lock_witness :
    (AssignToken ⟨["a"], [], [("a", 0)], []⟩ "a" 0 true).1 = Except.error TmErr.storeError ∧
    "a" ∉ (AssignToken ⟨["a"], [], [("a", 0)], []⟩ "a" 0 true).2.locks ∧
    "a" ∉ (AssignToken ⟨["a"], [], [("a", 0)], []⟩ "a" 0 true).2.token_pool ∧
    "a" ∉ (AssignToken ⟨["a"], [], [("a", 0)], []⟩ "a" 0 true).2.assigned_tokens :=
  assignToken_tx_failure_releases_lock ⟨["a"], [], [("a", 0)], []⟩ "a" 0
    (by decide) (by decide)

/-! ### Claim C6: Delete succeeds iff a removal changed store state -/

theorem delete_count_pos (st : Store) (token : String) :
    (0 < st.token_pool.count token + st.assigned_tokens.count token +
      (if (zScore st.keepalive_tokens token).isSome then 1 else 0)) ↔
    (token ∈ st.token_pool ∨ token ∈ st.assigned_tokens ∨
      (zScore st.keepalive_tokens token).isSome = true) := by
  constructor
  · intro h
    by_contra hc
    push_neg at hc
    obtain ⟨h1, h2, h3⟩ := hc
    rw [List.count_eq_zero.mpr h1, List.count_eq_zero.mpr h2] at h
    simp [h3] at h
  · rintro (h | h | h)
    · have h0 : st.token_pool.count token ≠ 0 := fun h0 => (List.count_eq_zero.mp h0) h
      omega
    · have h0 : st.assigned_tokens.count token ≠ 0 := fun h0 => (List.count_eq_zero.mp h0) h
      omega
    · simp only [h, if_pos]
      omega

/-- C6: `DeleteToken` returns success if and only if removing the token from
the pool, the assigned set or the keepalive index removed at least one
element; when all three removals remove nothing it returns
`ErrTokenNotFound`, never success. -/
theorem deleteToken_state (st : Store) (token : String) :
    (DeleteToken st token).2 = { st with
      token_pool := sRem st.token_pool token,
      assigned_tokens := sRem st.assigned_tokens token,
      keepalive_tokens := zRem st.keepalive_tokens token } := rfl

theorem deleteToken_success_iff_changed (st : Store) (token : String) :
    ((DeleteToken st token).1 = Except.ok () ↔
      (token ∈ st.token_pool ∨ token ∈ st.assigned_tokens ∨
        (zScore st.keepalive_tokens token).isSome = true)) ∧
    ((DeleteToken st token).1 = Except.error TmErr.tokenNotFound ↔
      ¬ (token ∈ st.token_pool ∨ token ∈ st.assigned_tokens ∨
        (zScore st.keepalive_tokens token).isSome = true)) := by
  by_cases h : 0 < st.token_pool.count token + st.assigned_tokens.count token +
      (if (zScore st.keepalive_tokens token).isSome then 1 else 0)
  · have hm := (delete_count_pos st token).mp h
    have hres : (DeleteToken st token).1 = Except.ok () := if_pos h
    refine ⟨⟨fun _ => hm, fun _ => hres⟩, ?_, fun hc => absurd hm hc⟩
    intro hc
    rw [hres] at hc
    cases hc
  · have hm : ¬ (token ∈ st.token_pool ∨ token ∈ st.assigned_tokens ∨
        (zScore st.keepalive_tokens token).isSome = true) :=
      fun hc => h ((delete_count_pos st token).mpr hc)
    have hres : (DeleteToken st token).1 = Except.error TmErr.tokenNotFound := if_neg h
    refine ⟨⟨?_, fun hc => absurd hc hm⟩, fun _ => hm, fun _ => hres⟩
    intro hc
    rw [hres] at hc
    cases hc

/-! ### Claim C7: ListAssigned reports remaining lease seconds, floored at −1 -/

/-- C7: for every token in the assigned set, the map returned by
`GetAssignedTokensWithExpiry` contains it, with value `deadline − now` when
a keepalive entry exists and `deadline − now > −1`, and `−1` when the entry
is missing or `deadline − now ≤ −1`; no value in the map is below `−1`. -/
theorem getAssignedTokensWithExpiry_spec (st : Store) (now : Int) (t : String)
    (ht : t ∈ st.assigned_tokens) :
    ∃ res, (GetAssignedTokensWithExpiry st now).1 = Except.ok res ∧
      (t, match zScore st.keepalive_tokens t with
          | none => (-1 : Int)
          | some e => if -1 < e - now then e - now else -1) ∈ res ∧
      ∀ p ∈ res, (-1 : Int) ≤ p.2 := by
  refine ⟨_, rfl, ?_, ?_⟩
  · apply List.mem_map.mpr
    refine ⟨t, ht, ?_⟩
    cases h : zScore st.keepalive_tokens t with
    | none => simp
    | some e =>
      simp only []
      have hmax : max (e - now) (-1 : Int) = if -1 < e - now then e - now else -1 := by
        rcases le_or_lt (e - now) (-1 : Int) with hc | hc
        · rw [max_eq_right hc, if_neg (not_lt.mpr hc)]
        · rw [max_eq_left hc.le, if_pos hc]
      rw [hmax]
  · intro p hp
    obtain ⟨u, _, rfl⟩ := List.mem_map.mp hp
    cases h : zScore st.keepalive_tokens u with
    | none => simp
    | some e => simp

theorem getAssignedTokensWithExpiry_spec_witness :
    ∃ res, (GetAssignedTokensWithExpiry ⟨[], ["a"], [("a", 100)], []⟩ 0).1 =
        Except.ok res ∧
      ("a", (100 : Int)) ∈ res ∧ ∀ p ∈ res, (-1 : Int) ≤ p.2 :=
  getAssignedTokensWithExpiry_spec ⟨[], ["a"], [("a", 100)], []⟩ 0 "a" (by decide)

/-! ### Claim C9: Delete succeeds on a token only present in the keepalive index -/

/-- C9: for a token outside both the pool and the assigned set that still has
a keepalive entry (e.g. orphaned by a failed Assign), `DeleteToken` returns
success and removes the keepalive entry. -/
theorem deleteToken_orphan_keepalive (st : Store) (token : String)
    (hp : token ∉ st.token_pool) (ha : token ∉ st.assigned_tokens)
    (hk : (zScore st.keepalive_tokens token).isSome = true) :
    (DeleteToken st token).1 = Except.ok () ∧
    zScore (DeleteToken st token).2.keepalive_tokens token = none := by
  have h : 0 < st.token_pool.count token + st.assigned_tokens.count token +
      (if (zScore st.keepalive_tokens token).isSome then 1 else 0) :=
    (delete_count_pos st token).mpr (Or.inr (Or.inr hk))
  constructor
  · exact if_pos h
  · rw [deleteToken_state]
    exact (zScore_zRem st.keepalive_tokens token token).trans (if_pos rfl)

theorem deleteToken_orphan_keepalive_witness :
    (DeleteToken ⟨[], [], [("a", 5)], []⟩ "a").1 = Except.ok () ∧
    zScore (DeleteToken ⟨[], [], [("a", 5)], []⟩ "a").2.keepalive_tokens "a" = none :=
  deleteToken_orphan_keepalive ⟨[], [], [("a", 5)], []⟩ "a"
    (by decide) (by decide) (by decide)

/-! ### Claim C10: the two listing operations are read-only -/

/-- C10: `GetAvailableTokens` and `GetAssignedTokensWithExpiry` leave the
pool, the assigned set, the keepalive index and the locks unchanged. -/
theorem list_operations_read_only (st : Store) (now : Int) :
    (GetAvailableTokens st).2 = st ∧ (GetAssignedTokensWithExpiry st now).2 = st :=
  ⟨rfl, rfl⟩

/-! ### Claim C1: pool/assigned mutual exclusion in every reachable state -/

theorem cleanupAssignedTokens_preserves_mutualExclusion (st : Store) (rB dB : Int)
    (aF : Bool) (hinv : mutualExclusion st) :
    mutualExclusion (cleanupAssignedTokens st rB dB aF).2 := by
  cases aF
  · rw [cleanupAssignedTokens_state_false]
    intro x hx
    obtain ⟨hx1, hx2⟩ := hx
    rw [mem_pool_applyAssignedCleanup] at hx1
    rw [mem_assigned_applyAssignedCleanup] at hx2
    obtain ⟨hxa, hnot⟩ := hx2
    rcases hx1 with hx | ⟨hxl, hcf⟩
    · exact hinv x ⟨hx, hxa⟩
    · exact hnot ⟨hxl, by rw [hcf]; rfl⟩
  · rw [cleanupAssignedTokens_state_true]
    exact hinv

theorem cleanupPoolTokens_preserves_mutualExclusion (st : Store) (dB : Int)
    (pF : Bool) (hinv : mutualExclusion st) :
    mutualExclusion (cleanupPoolTokens st dB pF).2 := by
  cases pF
  · rw [cleanupPoolTokens_state_false]
    intro x hx
    obtain ⟨hx1, hx2⟩ := hx
    rw [mem_pool_applyPoolCleanup] at hx1
    rw [assigned_applyPoolCleanup] at hx2
    exact hinv x ⟨hx1.1, hx2⟩
  · rw [cleanupPoolTokens_state_true]
    exact hinv

theorem step_preserves_mutualExclusion (st st2 : Store) (h : Step st st2)
    (hinv : mutualExclusion st) : mutualExclusion st2 := by
  cases h with
  | generate token now hp ha hk =>
    intro x hx
    obtain ⟨hx1, hx2⟩ := hx
    simp only [SaveToken] at hx1 hx2
    rcases mem_sAdd.mp hx1 with hx | rfl
    · exact hinv x ⟨hx, hx2⟩
    · exact ha hx2
  | generatePartial token hp ha hk =>
    intro x hx
    obtain ⟨hx1, hx2⟩ := hx
    rcases mem_sAdd.mp hx1 with hx | rfl
    · exact hinv x ⟨hx, hx2⟩
    · exact ha hx2
  | assign token now txFails hmem =>
    intro x hx
    obtain ⟨hx1, hx2⟩ := hx
    by_cases hl : token ∈ st.locks
    · simp only [AssignToken, if_pos hl] at hx1 hx2
      exact hinv x ⟨(mem_sRem.mp hx1).1, hx2⟩
    · cases txFails
      · simp only [AssignToken, if_neg hl, Bool.false_eq_true, if_false] at hx1 hx2
        rcases mem_sAdd.mp hx2 with hx | rfl
        · exact hinv x ⟨(mem_sRem.mp hx1).1, hx⟩
        · exact (mem_sRem.mp hx1).2 rfl
      · simp only [AssignToken, if_neg hl, if_true] at hx1 hx2
        exact hinv x ⟨(mem_sRem.mp hx1).1, hx2⟩
  | keepAlive token now =>
    intro x hx
    obtain ⟨hx1, hx2⟩ := hx
    by_cases hc : token ∈ st.token_pool ∨ token ∈ st.assigned_tokens
    · simp only [KeepAlive, if_pos hc] at hx1 hx2
      exact hinv x ⟨hx1, hx2⟩
    · simp only [KeepAlive, if_neg hc] at hx1 hx2
      exact hinv x ⟨hx1, hx2⟩
  | unblock token now =>
    intro x hx
    obtain ⟨hx1, hx2⟩ := hx
    by_cases hc : token ∈ st.assigned_tokens
    · simp only [UnblockToken, if_pos hc] at hx1 hx2
      rcases mem_sAdd.mp hx1 with hx | rfl
      · exact hinv x ⟨hx, (mem_sRem.mp hx2).1⟩
      · exact (mem_sRem.mp hx2).2 rfl
    · simp only [UnblockToken, if_neg hc] at hx1 hx2
      exact hinv x ⟨hx1, hx2⟩
  | delete token =>
    intro x hx
    obtain ⟨hx1, hx2⟩ := hx
    rw [deleteToken_state] at hx1 hx2
    exact hinv x ⟨(mem_sRem.mp hx1).1, (mem_sRem.mp hx2).1⟩
  | reconcile now aF pF =>
    rw [show (cleanupExpiredTokens st now aF pF).2 =
      (cleanupPoolTokens (cleanupAssignedTokens st (now - TokenAutoReleaseTime)
        (now - TokenDeletionTime) aF).2 (now - TokenDeletionTime) pF).2
      from cleanupExpiredTokens_snd st now aF pF]
    exact cleanupPoolTokens_preserves_mutualExclusion _ _ _
      (cleanupAssignedTokens_preserves_mutualExclusion _ _ _ _ hinv)
  | lockExpire token =>
    intro x hx
    exact hinv x hx

/-- C1: in every store reachable from the empty store by completed
repository operations, no token is simultaneously a member of the Available
pool and of the Assigned set. -/
theorem reachable_pool_assigned_mutually_exclusive (st : Store) (h : Reachable st) :
    ∀ t : String, ¬(t ∈ st.token_pool ∧ t ∈ st.assigned_tokens) := by
  induction h with
  | empty =>
    intro t ht
    exact absurd ht.1 (List.not_mem_nil t)
  | step st st2 hr hs ih =>
    exact step_preserves_mutualExclusion st st2 hs ih

theorem reachable_pool_assigned_mutually_exclusive_witness :
    ¬("a" ∈ (AssignToken (SaveToken Store.empty "a" 0).2 "a" 0 false).2.token_pool ∧
      "a" ∈ (AssignToken (SaveToken Store.empty "a" 0).2 "a" 0 false).2.assigned_tokens) :=
  reachable_pool_assigned_mutually_exclusive
    (AssignToken (SaveToken Store.empty "a" 0).2 "a" 0 false).2
    (Reachable.step _ _
      (Reachable.step _ _ Reachable.empty
        (Step.generate Store.empty "a" 0 (by decide) (by decide) (by decide)))
      (Step.assign (SaveToken Store.empty "a" 0).2 "a" 0 false (by decide)))
    "a"

/-! ### Claim C8: the two reconciliation sweeps commute -/

theorem assignedClassify_eq_none (k : List (String × Int)) (rB dB : Int) (t : String)
    (h : zScore k t = none) : assignedClassify k rB dB t = some true := by
  unfold assignedClassify
  rw [h]

theorem assignedClassify_eq_some (k : List (String × Int)) (rB dB : Int) (t : String)
    (e : Int) (h : zScore k t = some e) :
    assignedClassify k rB dB t =
      if e ≤ dB then some true else if e ≤ rB then some false else none := by
  unfold assignedClassify
  rw [h]

theorem poolShouldDelete_eq_none (k : List (String × Int)) (dB : Int) (t : String)
    (h : zScore k t = none) : poolShouldDelete k dB t = true := by
  unfold poolShouldDelete
  rw [h]

theorem poolShouldDelete_eq_some (k : List (String × Int)) (dB : Int) (t : String)
    (e : Int) (h : zScore k t = some e) : poolShouldDelete k dB t = decide (e ≤ dB) := by
  unfold poolShouldDelete
  rw [h]

theorem poolShouldDelete_false_of_released (k : List (String × Int)) (rB dB : Int)
    (t : String) (hc : assignedClassify k rB dB t = some false) :
    poolShouldDelete k dB t = false := by
  cases hz : zScore k t with
  | none =>
    rw [assignedClassify_eq_none k rB dB t hz] at hc
    simp at hc
  | some e =>
    rw [assignedClassify_eq_some k rB dB t e hz] at hc
    rw [poolShouldDelete_eq_some k dB t e hz]
    by_cases hd : e ≤ dB
    · rw [if_pos hd] at hc
      simp at hc
    · simp [hd]

theorem assignedClassify_poolSwept (st : Store) (rB dB : Int) (l : List String)
    (t : String) :
    assignedClassify (applyPoolCleanup (poolShouldDelete st.keepalive_tokens dB)
        (poolHasScore st.keepalive_tokens) l st).keepalive_tokens rB dB t =
    assignedClassify st.keepalive_tokens rB dB t := by
  by_cases h : t ∈ l ∧ poolShouldDelete st.keepalive_tokens dB t = true ∧
      poolHasScore st.keepalive_tokens t = true
  · have hz' : zScore (applyPoolCleanup (poolShouldDelete st.keepalive_tokens dB)
        (poolHasScore st.keepalive_tokens) l st).keepalive_tokens t = none := by
      rw [zScore_applyPoolCleanup, if_pos h]
    rw [assignedClassify_eq_none _ rB dB t hz']
    obtain ⟨-, hsd, hhs⟩ := h
    obtain ⟨e, he⟩ := Option.isSome_iff_exists.mp (by
      unfold poolHasScore at hhs
      exact hhs)
    have hle : e ≤ dB := by
      rw [poolShouldDelete_eq_some _ _ _ e he] at hsd
      simpa using hsd
    rw [assignedClassify_eq_some _ rB dB t e he, if_pos hle]
  · have hz' : zScore (applyPoolCleanup (poolShouldDelete st.keepalive_tokens dB)
        (poolHasScore st.keepalive_tokens) l st).keepalive_tokens t =
        zScore st.keepalive_tokens t := by
      rw [zScore_applyPoolCleanup, if_neg h]
    cases hz : zScore st.keepalive_tokens t with
    | none => rw [assignedClassify_eq_none _ _ _ _ (hz'.trans hz),
        assignedClassify_eq_none _ _ _ _ hz]
    | some e => rw [assignedClassify_eq_some _ _ _ _ e (hz'.trans hz),
        assignedClassify_eq_some _ _ _ _ e hz]

theorem poolShouldDelete_assignedSwept (st : Store) (rB dB : Int) (l : List String)
    (t : String) :
    poolShouldDelete (applyAssignedCleanup
        (assignedClassify st.keepalive_tokens rB dB) l st).keepalive_tokens dB t =
    poolShouldDelete st.keepalive_tokens dB t := by
  by_cases h : t ∈ l ∧ assignedClassify st.keepalive_tokens rB dB t = some true
  · have hz' : zScore (applyAssignedCleanup
        (assignedClassify st.keepalive_tokens rB dB) l st).keepalive_tokens t = none := by
      rw [zScore_applyAssignedCleanup, if_pos h]
    rw [poolShouldDelete_eq_none _ _ _ hz']
    obtain ⟨-, hc⟩ := h
    cases hz : zScore st.keepalive_tokens t with
    | none => rw [poolShouldDelete_eq_none _ _ _ hz]
    | some e =>
      rw [assignedClassify_eq_some _ _ _ _ e hz] at hc
      rw [poolShouldDelete_eq_some _ _ _ e hz]
      by_cases hd : e ≤ dB
      · simp [hd]
      · rw [if_neg hd] at hc
        by_cases hr : e ≤ rB
        · rw [if_pos hr] at hc
          simp at hc
        · rw [if_neg hr] at hc
          simp at hc
  · have hz' : zScore (applyAssignedCleanup
        (assignedClassify st.keepalive_tokens rB dB) l st).keepalive_tokens t =
        zScore st.keepalive_tokens t := by
      rw [zScore_applyAssignedCleanup, if_neg h]
    cases hz : zScore st.keepalive_tokens t with
    | none => rw [poolShouldDelete_eq_none _ _ _ (hz'.trans hz),
        poolShouldDelete_eq_none _ _ _ hz]
    | some e => rw [poolShouldDelete_eq_some _ _ _ e (hz'.trans hz),
        poolShouldDelete_eq_some _ _ _ e hz]

theorem apply_sweeps_commute (st : Store) (c : String → Option Bool)
    (sd hs hs1 : String → Bool)
    (hrelsd : ∀ x, x ∈ st.assigned_tokens → c x = some false → sd x = false)
    (hhs1 : ∀ x, hs1 x =
      if x ∈ st.assigned_tokens ∧ c x = some true then false else hs x) :
    Store.Equiv
      (applyPoolCleanup sd hs1
        (applyAssignedCleanup c st.assigned_tokens st).token_pool
        (applyAssignedCleanup c st.assigned_tokens st))
      (applyAssignedCleanup c
        (applyPoolCleanup sd hs st.token_pool st).assigned_tokens
        (applyPoolCleanup sd hs st.token_pool st)) := by
  refine ⟨?_, ?_, ?_, ?_⟩
  · intro x
    rw [mem_pool_applyPoolCleanup, mem_pool_applyAssignedCleanup,
      mem_pool_applyAssignedCleanup, assigned_applyPoolCleanup,
      mem_pool_applyPoolCleanup]
    by_cases hrel : x ∈ st.assigned_tokens ∧ c x = some false
    · have hS : ¬(sd x = true) := by
        rw [hrelsd x hrel.1 hrel.2]
        simp
      tauto
    · tauto
  · intro x
    rw [assigned_applyPoolCleanup, mem_assigned_applyAssignedCleanup,
      mem_assigned_applyAssignedCleanup, assigned_applyPoolCleanup]
  · intro x
    rw [zScore_applyPoolCleanup sd hs1
        (applyAssignedCleanup c st.assigned_tokens st).token_pool
        (applyAssignedCleanup c st.assigned_tokens st) x]
    rw [zScore_applyAssignedCleanup c st.assigned_tokens st x]
    rw [zScore_applyAssignedCleanup c
        (applyPoolCleanup sd hs st.token_pool st).assigned_tokens
        (applyPoolCleanup sd hs st.token_pool st) x]
    rw [assigned_applyPoolCleanup sd hs st.token_pool st]
    rw [zScore_applyPoolCleanup sd hs st.token_pool st x]
    by_cases hAd : x ∈ st.assigned_tokens ∧ c x = some true
    · rw [if_pos hAd, ite_self, if_pos hAd]
    · rw [if_neg hAd, if_neg hAd]
      have hh : hs1 x = hs x := by
        rw [hhs1 x, if_neg hAd]
      rw [hh]
      by_cases hrel : x ∈ st.assigned_tokens ∧ c x = some false
      · have hS : sd x = false := hrelsd x hrel.1 hrel.2
        rw [if_neg (fun hcon => by rw [hS] at hcon; exact absurd hcon.2.1 (by simp)),
            if_neg (fun hcon => by rw [hS] at hcon; exact absurd hcon.2.1 (by simp))]
      · have hp : x ∈ (applyAssignedCleanup c st.assigned_tokens st).token_pool ↔
            x ∈ st.token_pool := by
          rw [mem_pool_applyAssignedCleanup]
          exact or_iff_left hrel
        by_cases hcond : x ∈ st.token_pool ∧ sd x = true ∧ hs x = true
        · rw [if_pos ⟨hp.mpr hcond.1, hcond.2.1, hcond.2.2⟩, if_pos hcond]
        · rw [if_neg (fun hcon => hcond ⟨hp.mp hcon.1, hcon.2.1, hcon.2.2⟩),
            if_neg hcond]
  · intro x
    rw [locks_applyPoolCleanup, locks_applyAssignedCleanup,
      locks_applyAssignedCleanup, locks_applyPoolCleanup]

/-- C8: for every starting store and fixed `now`, running the assigned
sweep then the pool sweep produces the same final store (as a Redis state)
and the same aggregate released/deleted counts as running the pool sweep
then the assigned sweep: the two reconciliation sweeps commute. -/
theorem reconcile_sweeps_commute (st : Store) (now : Int) :
    Store.Equiv
      (cleanupPoolTokens (cleanupAssignedTokens st (now - TokenAutoReleaseTime)
          (now - TokenDeletionTime) false).2 (now - TokenDeletionTime) false).2
      (cleanupAssignedTokens (cleanupPoolTokens st (now - TokenDeletionTime) false).2
          (now - TokenAutoReleaseTime) (now - TokenDeletionTime) false).2 ∧
    (cleanupAssignedTokens st (now - TokenAutoReleaseTime)
          (now - TokenDeletionTime) false).1.TokensReleased +
        (cleanupPoolTokens (cleanupAssignedTokens st (now - TokenAutoReleaseTime)
          (now - TokenDeletionTime) false).2
          (now - TokenDeletionTime) false).1.TokensReleased =
      (cleanupPoolTokens st (now - TokenDeletionTime) false).1.TokensReleased +
        (cleanupAssignedTokens (cleanupPoolTokens st (now - TokenDeletionTime) false).2
          (now - TokenAutoReleaseTime) (now - TokenDeletionTime) false).1.TokensReleased ∧
    (cleanupAssignedTokens st (now - TokenAutoReleaseTime)
          (now - TokenDeletionTime) false).1.TokensDeleted +
        (cleanupPoolTokens (cleanupAssignedTokens st (now - TokenAutoReleaseTime)
          (now - TokenDeletionTime) false).2
          (now - TokenDeletionTime) false).1.TokensDeleted =
      (cleanupPoolTokens st (now - TokenDeletionTime) false).1.TokensDeleted +
        (cleanupAssignedTokens (cleanupPoolTokens st (now - TokenDeletionTime) false).2
          (now - TokenAutoReleaseTime) (now - TokenDeletionTime) false).1.TokensDeleted := by
  have hA := cleanupAssignedTokens_state_false st (now - TokenAutoReleaseTime)
    (now - TokenDeletionTime)
  have hP := cleanupPoolTokens_state_false st (now - TokenDeletionTime)
  refine ⟨?_, ?_, ?_⟩
  · rw [hA, hP, cleanupPoolTokens_state_false, cleanupAssignedTokens_state_false]
    rw [funext (poolShouldDelete_assignedSwept st (now - TokenAutoReleaseTime)
        (now - TokenDeletionTime) st.assigned_tokens),
      funext (assignedClassify_poolSwept st (now - TokenAutoReleaseTime)
        (now - TokenDeletionTime) st.token_pool)]
    refine apply_sweeps_commute st _ _ _ _
      (fun x _ hx => poolShouldDelete_false_of_released st.keepalive_tokens _ _ x hx)
      (fun x => ?_)
    unfold poolHasScore
    rw [zScore_applyAssignedCleanup]
    by_cases h : x ∈ st.assigned_tokens ∧
        assignedClassify st.keepalive_tokens (now - TokenAutoReleaseTime)
          (now - TokenDeletionTime) x = some true
    · rw [if_pos h, if_pos h]
      rfl
    · rw [if_neg h, if_neg h]
  · obtain ⟨h1, -⟩ := cleanupAssignedTokens_counts st (now - TokenAutoReleaseTime)
      (now - TokenDeletionTime) false
    obtain ⟨h2, -⟩ := cleanupPoolTokens_counts (cleanupAssignedTokens st
      (now - TokenAutoReleaseTime) (now - TokenDeletionTime) false).2
      (now - TokenDeletionTime) false
    obtain ⟨h3, -⟩ := cleanupPoolTokens_counts st (now - TokenDeletionTime) false
    obtain ⟨h4, -⟩ := cleanupAssignedTokens_counts
      (cleanupPoolTokens st (now - TokenDeletionTime) false).2
      (now - TokenAutoReleaseTime) (now - TokenDeletionTime) false
    rw [h1, h2, h3, h4, hP]
    rw [funext (assignedClassify_poolSwept st (now - TokenAutoReleaseTime)
        (now - TokenDeletionTime) st.token_pool),
      assigned_applyPoolCleanup]
    omega
  · obtain ⟨-, h1⟩ := cleanupAssignedTokens_counts st (now - TokenAutoReleaseTime)
      (now - TokenDeletionTime) false
    obtain ⟨-, h2⟩ := cleanupPoolTokens_counts (cleanupAssignedTokens st
      (now - TokenAutoReleaseTime) (now - TokenDeletionTime) false).2
      (now - TokenDeletionTime) false
    obtain ⟨-, h3⟩ := cleanupPoolTokens_counts st (now - TokenDeletionTime) false
    obtain ⟨-, h4⟩ := cleanupAssignedTokens_counts
      (cleanupPoolTokens st (now - TokenDeletionTime) false).2
      (now - TokenAutoReleaseTime) (now - TokenDeletionTime) false
    rw [h1, h2, h3, h4, hA, hP]
    rw [funext (poolShouldDelete_assignedSwept st (now - TokenAutoReleaseTime)
        (now - TokenDeletionTime) st.assigned_tokens),
      funext (assignedClassify_poolSwept st (now - TokenAutoReleaseTime)
        (now - TokenDeletionTime) st.token_pool),
      assigned_applyPoolCleanup]
    obtain ⟨ex, hex, hall⟩ := pool_applyAssignedCleanup_append
      (assignedClassify st.keepalive_tokens (now - TokenAutoReleaseTime)
        (now - TokenDeletionTime)) st.assigned_tokens st
    rw [hex, List.filter_append, List.length_append]
    have hexnil : ex.filter (poolShouldDelete st.keepalive_tokens
        (now - TokenDeletionTime)) = [] := by
      apply List.filter_eq_nil_iff.mpr
      intro a ha
      rw [poolShouldDelete_false_of_released st.keepalive_tokens
        (now - TokenAutoReleaseTime) (now - TokenDeletionTime) a (hall a ha).2]
      simp
    rw [hexnil]
    simp only [List.length_nil]
    omega

end TokenManager
